import Mathlib

/-!
Verification of the category-based logging facility of fcitx5
(`src/lib/fcitx-utils/log.cpp`): the severity scale, `LogCategory`,
the `LogRegistry` with its rule string parsing and rule application,
and the fatal-gating wrappers.

The `LogLevel` enumeration (declared in `log.h`) and `stringutils::split`
are not part of the available source; they are modelled from the spec,
as marked on their doc comments.  Everything else is translated directly
from `log.cpp`.
-/

namespace fcitx

/-- Modelled from the spec: the Severity Scale of `log.h` (not in the
available source).  An ordered set of real levels {Fatal, Error, Warn,
Info, Debug} plus the sentinel `NoLog`; `LastLogLevel` is the most
verbose real level. -/
inductive LogLevel where
  | NoLog
  | Fatal
  | Error
  | Warn
  | Info
  | Debug
deriving DecidableEq, Repr

/-- Modelled from the spec: the numeric rank (the value of the underlying
integer type) of each level.  Lower rank = more severe; the real levels
occupy the validated range `[0, LastLogLevel]` and `NoLog` lies outside
(below) that range. -/
def LogLevel.toInt : LogLevel → Int
  | .NoLog => -1
  | .Fatal => 0
  | .Error => 1
  | .Warn => 2
  | .Info => 3
  | .Debug => 4

/-- Modelled from the spec: `LastLogLevel` is the most verbose real level. -/
def LogLevel.LastLogLevel : LogLevel := .Debug

/-- Modelled from the spec: `static_cast<LogLevel>` of an underlying
integer in the validated range; values outside the enumeration are never
produced by the program (the cast is always guarded by validation). -/
def LogLevel.ofInt (l : Int) : LogLevel :=
  if l = 0 then .Fatal
  else if l = 1 then .Error
  else if l = 2 then .Warn
  else if l = 3 then .Info
  else if l = 4 then .Debug
  else .NoLog

/-- Translation of `validateLogLevel` (log.cpp:28-31): a raw underlying
integer is legal iff `0 ≤ l` and `l ≤ LastLogLevel`. -/
def validateLogLevel (l : Int) : Bool :=
  decide (0 ≤ l) && decide (l ≤ LogLevel.LastLogLevel.toInt)

namespace stringutils

/-- Helper for `split`: walks the character list, cutting at the
delimiter; `cur` accumulates the current token in reverse. -/
def splitAux (delim : Char) : List Char → List Char → List String
  | [], cur => [String.mk cur.reverse]
  | c :: rest, cur =>
    if c = delim then String.mk cur.reverse :: splitAux delim rest []
    else splitAux delim rest (c :: cur)

/-- Modelled from the spec: `stringutils::split` (stringutils.h, not in
the available source): "split the string on a separator" — cut the
string at every occurrence of the (single-character) delimiter. -/
def split (s : String) (delim : Char) : List String :=
  splitAux delim s.data []

end stringutils

/-- Character class used by `std::stoi`: decimal digit. -/
def isDigitChar (c : Char) : Bool := decide ('0' ≤ c) && decide (c ≤ '9')

/-- Character class used by `std::stoi`: leading whitespace it skips. -/
def isSpaceChar (c : Char) : Bool :=
  c = ' ' || c = '\t' || c = '\n' || c = '\x0b' || c = '\x0c' || c = '\r'

/-- Value of a (most-significant-first) list of decimal digits. -/
def digitsToNat (ds : List Char) : Nat :=
  ds.foldl (fun n c => 10 * n + (c.toNat - Char.toNat '0')) 0

/-- Embedding of `std::stoi` (C++ standard library, called at
log.cpp:66): skip leading whitespace, read an optional sign, then a
non-empty run of decimal digits; trailing non-digit characters are
ignored; `none` models the exception thrown when no digits are found.
(The out-of-int-range exception is not modelled: the unbounded value is
returned instead, and every such value fails `validateLogLevel`, so the
rule is dropped either way.) -/
def stoi? (s : String) : Option Int :=
  let cs := s.data.dropWhile isSpaceChar
  let signed : Int × List Char :=
    match cs with
    | '+' :: r => (1, r)
    | '-' :: r => (-1, r)
    | r => (1, r)
  let ds := signed.2.takeWhile isDigitChar
  if ds.isEmpty then none else some (signed.1 * (digitsToNat ds : Int))

/-- State of one `LogCategory` object (`LogCategoryPrivate`,
log.cpp:96-104): immutable name, current level `level_`, and the
remembered construction-time default `defaultLevel_`. -/
structure LogCategory where
  name : String
  level : LogLevel
  defaultLevel : LogLevel
deriving DecidableEq, Repr

/-- Translation of `LogCategory::checkLogLevel` (log.cpp:115-120). -/
def checkLogLevel (c : LogCategory) (l : LogLevel) : Bool :=
  decide (l ≠ LogLevel.NoLog) && decide (l.toInt ≤ c.level.toInt)

/-- Translation of `LogCategory::resetLogLevel` (log.cpp:122-125). -/
def resetLogLevel (c : LogCategory) : LogCategory :=
  { c with level := c.defaultLevel }

/-- Translation of `LogCategory::setLogLevel(LogLevel)`
(log.cpp:133-136): unconditional assignment. -/
def setLogLevel (c : LogCategory) (l : LogLevel) : LogCategory :=
  { c with level := l }

/-- Translation of the raw-integer overload
`LogCategory::setLogLevel(underlying_type)` (log.cpp:127-131): validate
first, silently ignore if invalid. -/
def setLogLevelInt (c : LogCategory) (l : Int) : LogCategory :=
  if validateLogLevel l then setLogLevel c (LogLevel.ofInt l) else c

/-- Result of a gating call that may terminate the process: either the
function returns a boolean, or it calls `std::abort()`. -/
inductive FatalResult where
  | ret (b : Bool)
  | abort
deriving DecidableEq, Repr

/-- Translation of `LogCategory::fatalWrapper` (log.cpp:148-155): if the
level is Fatal and the threshold suppresses it, abort; otherwise return
the ordinary check. -/
def fatalWrapper (c : LogCategory) (level : LogLevel) : FatalResult :=
  let needLog := checkLogLevel c level
  if level = LogLevel.Fatal ∧ needLog = false then .abort else .ret needLog

/-- Translation of `LogCategory::fatalWrapper2` (log.cpp:157-162): abort
whenever the level is Fatal, otherwise return false; no category state
is consulted. -/
def fatalWrapper2 (level : LogLevel) : FatalResult :=
  if level = LogLevel.Fatal then .abort else .ret false

/-- Translation of the parsing loop of `LogRegistry::setLogRule`
(log.cpp:56-73, the spec's `parseRules`): split on ",", split each
token on "=", keep only tokens with exactly two parts whose value part
`std::stoi` parses to a validated level. -/
def parseRules (ruleString : String) : List (String × LogLevel) :=
  let rules := stringutils.split ruleString ','
  rules.foldl
    (fun acc rule =>
      match stringutils.split rule '=' with
      | [name, value] =>
        match stoi? value with
        | some level =>
          if validateLogLevel level then acc ++ [(name, LogLevel.ofInt level)]
          else acc
        | none => acc
      | _ => acc)
    []

/-- Translation of `LogRegistry::applyRule` (log.cpp:80-87) acting on
one category state: reset to the default, then iterate the rule list in
order, assigning the rule's level whenever its pattern is `"*"` or the
category's exact name. -/
def applyRule (rules : List (String × LogLevel)) (c : LogCategory) : LogCategory :=
  rules.foldl
    (fun cat rule =>
      if rule.1 = "*" ∨ rule.1 = cat.name then setLogLevel cat rule.2 else cat)
    (resetLogLevel c)

/-- State of the registry together with the live category objects it
points to.  `heap` models the `LogCategory` objects (identified by a
numeric identity standing for their address), `categories` models the
registry's `categories_` set of tracked identities, and `rules` models
`rules_` (log.cpp:89-92). -/
structure LogWorld where
  heap : List (Nat × LogCategory)
  categories : List Nat
  rules : List (String × LogLevel)
deriving DecidableEq, Repr

/-- Update the heap entry (entries) carrying identity `id`. -/
def updateHeap (heap : List (Nat × LogCategory)) (id : Nat)
    (f : LogCategory → LogCategory) : List (Nat × LogCategory) :=
  heap.map fun p => if p.1 = id then (p.1, f p.2) else p

/-- Translation of `LogRegistry::registerCategory` (log.cpp:40-46): if
the identity is already tracked do nothing, otherwise add it to the
tracked set and apply the current rules to that one category. -/
def registerCategory (w : LogWorld) (id : Nat) : LogWorld :=
  if w.categories.contains id then w
  else { w with
         categories := id :: w.categories
         heap := updateHeap w.heap id (applyRule w.rules) }

/-- Translation of `LogRegistry::unregisterCategory` (log.cpp:48-51):
erase the identity from the tracked set; the category object itself is
untouched. -/
def unregisterCategory (w : LogWorld) (id : Nat) : LogWorld :=
  { w with categories := w.categories.filter (fun x => x ≠ id) }

/-- Translation of `LogRegistry::setLogRule` (log.cpp:53-78): replace
the rule set wholesale with the newly parsed rules, then apply them to
every tracked category. -/
def setLogRule (w : LogWorld) (ruleString : String) : LogWorld :=
  let rules := parseRules ruleString
  { heap := w.heap.map fun p =>
      if w.categories.contains p.1 then (p.1, applyRule rules p.2) else p
    categories := w.categories
    rules := rules }

/-- Translation of the `LogCategory` constructor (log.cpp:106-109): the
object starts with `level_ = defaultLevel_ = level` and immediately
registers itself with the registry. -/
def constructCategory (w : LogWorld) (id : Nat) (name : String)
    (level : LogLevel) : LogWorld :=
  registerCategory
    { w with heap := (id, ⟨name, level, level⟩) :: w.heap } id

/-- Spec-side notion used only to state claim C6: a string that is
literally an integer — an optional sign followed by one or more decimal
digits and nothing else. -/
def isIntegerString (s : String) : Bool :=
  let cs : List Char :=
    match s.data with
    | '+' :: r => r
    | '-' :: r => r
    | r => r
  !cs.isEmpty && cs.all isDigitChar

/-- Per-token form of the rule-parsing loop, used to characterize
`parseRules`: `some rule` when the token is kept, `none` when it is
dropped. -/
def parseRuleToken (tok : String) : Option (String × LogLevel) :=
  match stringutils.split tok '=' with
  | [name, value] =>
    match stoi? value with
    | some level =>
      if validateLogLevel level then some (name, LogLevel.ofInt level)
      else none
    | none => none
  | _ => none

/-- The fold of `applyRule` restricted to the level field, with the
category name frozen. -/
def levelFold (rules : List (String × LogLevel)) (n : String)
    (init : LogLevel) : LogLevel :=
  rules.foldl (fun lv rule => if rule.1 = "*" ∨ rule.1 = n then rule.2 else lv) init

/-- Sequence of mutations a category can undergo after construction:
raw-integer `setLogLevel`, typed `setLogLevel`, a registry rule
application, or a reset. -/
inductive CatOp where
  | setInt (l : Int)
  | setLevel (l : LogLevel)
  | applyRules (rules : List (String × LogLevel))
  | reset

/-- Run a sequence of category mutations in order. -/
def runOps (c : LogCategory) (ops : List CatOp) : LogCategory :=
  ops.foldl
    (fun cat op =>
      match op with
      | .setInt l => setLogLevelInt cat l
      | .setLevel l => setLogLevel cat l
      | .applyRules rules => applyRule rules cat
      | .reset => resetLogLevel cat)
    c

/-- Folding an override step over a list keeps the value of the last
element satisfying the predicate, or the initial value if none does. -/
theorem foldl_override {α β : Type} (p : α → Prop) [DecidablePred p]
    (f : α → β) (l : List α) (init : β) :
    l.foldl (fun acc a => if p a then f a else acc) init
      = (((l.filter fun a => decide (p a)).getLast?).map f).getD init := by
  induction l generalizing init with
  | nil => simp
  | cons a l ih =>
    by_cases h : p a
    · rw [List.foldl_cons, if_pos h, ih]
      have hf : (a :: l).filter (fun a => decide (p a))
          = a :: l.filter (fun a => decide (p a)) := by
        simp [List.filter_cons, h]
      rw [hf]
      cases hl : l.filter (fun a => decide (p a)) with
      | nil => simp
      | cons x xs =>
        rw [List.getLast?_cons_cons,
          List.getLast?_eq_getLast_of_ne_nil (List.cons_ne_nil x xs)]
        simp
    · rw [List.foldl_cons, if_neg h, ih]
      have hf : (a :: l).filter (fun a => decide (p a))
          = l.filter (fun a => decide (p a)) := by
        simp [List.filter_cons, h]
      rw [hf]

/-- The inner fold of `applyRule` only ever changes the `level` field,
so it equals an override fold on the level with the name frozen. -/
theorem applyRule_foldl (rules : List (String × LogLevel)) (acc : LogCategory) :
    rules.foldl
      (fun cat rule =>
        if rule.1 = "*" ∨ rule.1 = cat.name then setLogLevel cat rule.2 else cat)
      acc
    = { acc with level := levelFold rules acc.name acc.level } := by
  induction rules generalizing acc with
  | nil => rfl
  | cons r rs ih =>
    simp only [List.foldl_cons]
    by_cases h : r.1 = "*" ∨ r.1 = acc.name
    · rw [if_pos h, ih (setLogLevel acc r.2)]
      simp only [levelFold, List.foldl_cons, setLogLevel, if_pos h]
    · rw [if_neg h, ih acc]
      simp only [levelFold, List.foldl_cons, if_neg h]

/-- Characterization of `applyRule`: the resulting level is the level of
the last rule matching the category (wildcard or exact name), or the
default when no rule matches. -/
theorem applyRule_level (rules : List (String × LogLevel)) (c : LogCategory) :
    (applyRule rules c).level
      = ((((rules.filter fun r => decide (r.1 = "*" ∨ r.1 = c.name)).getLast?).map
            Prod.snd).getD c.defaultLevel) := by
  rw [applyRule, applyRule_foldl]
  show levelFold rules c.name c.defaultLevel = _
  rw [levelFold, foldl_override (fun r => r.1 = "*" ∨ r.1 = c.name) Prod.snd]

/-- `applyRule` never changes the category's name. -/
theorem applyRule_name (rules : List (String × LogLevel)) (c : LogCategory) :
    (applyRule rules c).name = c.name := by
  rw [applyRule, applyRule_foldl]
  rfl

/-- `applyRule` never changes the category's remembered default. -/
theorem applyRule_defaultLevel (rules : List (String × LogLevel)) (c : LogCategory) :
    (applyRule rules c).defaultLevel = c.defaultLevel := by
  rw [applyRule, applyRule_foldl]
  rfl

/-- The parsing loop of `setLogRule` appends exactly the rules produced
by `parseRuleToken`, token by token. -/
theorem parse_foldl_eq (toks : List String) (acc : List (String × LogLevel)) :
    toks.foldl
      (fun acc rule =>
        match stringutils.split rule '=' with
        | [name, value] =>
          match stoi? value with
          | some level =>
            if validateLogLevel level then acc ++ [(name, LogLevel.ofInt level)]
            else acc
          | none => acc
        | _ => acc)
      acc
    = acc ++ toks.filterMap parseRuleToken := by
  induction toks generalizing acc with
  | nil => simp
  | cons t ts ih =>
    rw [List.foldl_cons, List.filterMap_cons, ih]
    unfold parseRuleToken
    rcases hs : stringutils.split t '=' with _ | ⟨n, _ | ⟨v, _ | _⟩⟩ <;>
      simp only [hs]
    rcases hi : stoi? v with _ | lvl <;> simp only [hi]
    by_cases hv : validateLogLevel lvl <;> simp [hv]

/-- Characterization of `parseRules`: exactly the tokens accepted by
`parseRuleToken` are kept, in order. -/
theorem parseRules_eq_filterMap (s : String) :
    parseRules s = (stringutils.split s ',').filterMap parseRuleToken := by
  rw [parseRules, parse_foldl_eq]
  simp

/-- A validated raw integer never casts to the `NoLog` sentinel. -/
theorem ofInt_ne_NoLog (l : Int) (h : validateLogLevel l = true) :
    LogLevel.ofInt l ≠ LogLevel.NoLog := by
  rw [validateLogLevel] at h
  simp only [Bool.and_eq_true, decide_eq_true_eq] at h
  rw [LogLevel.ofInt]
  split_ifs with h0 h1 h2 h3 h4 <;> simp
  have : LogLevel.LastLogLevel.toInt = 4 := rfl
  omega

/-- A kept rule token never carries the level `NoLog`. -/
theorem parseRuleToken_ne_NoLog (tok : String) (r : String × LogLevel)
    (h : parseRuleToken tok = some r) : r.2 ≠ LogLevel.NoLog := by
  rw [parseRuleToken] at h
  split at h
  · split at h
    · split at h
      · rename_i lvl hlvl hv
        cases h
        exact ofInt_ne_NoLog lvl hv
      · exact absurd h (by simp)
    · exact absurd h (by simp)
  · exact absurd h (by simp)

/-- A rule produced by parsing never carries the level `NoLog`. -/
theorem parseRules_ne_NoLog (s : String) (r : String × LogLevel)
    (h : r ∈ parseRules s) : r.2 ≠ LogLevel.NoLog := by
  rw [parseRules_eq_filterMap, List.mem_filterMap] at h
  obtain ⟨tok, _, htok⟩ := h
  exact parseRuleToken_ne_NoLog tok r htok

/-- Looking up the key just added at the head of an association list. -/
theorem lookup_cons_self (k : Nat) (v : LogCategory)
    (l : List (Nat × LogCategory)) :
    List.lookup k ((k, v) :: l) = some v := by
  simp [List.lookup]

/-- Looking up a key different from the head of an association list. -/
theorem lookup_cons_ne (a k : Nat) (v : LogCategory)
    (l : List (Nat × LogCategory)) (h : a ≠ k) :
    List.lookup a ((k, v) :: l) = List.lookup a l := by
  have hb : (a == k) = false := beq_eq_false_iff_ne.mpr h
  simp [List.lookup, hb]

/-- Looking an identity up in the heap after `setLogRule`'s bulk apply,
when the identity is tracked, yields the rule-applied category. -/
theorem lookup_map_rules (cats : List Nat) (rules : List (String × LogLevel))
    (heap : List (Nat × LogCategory)) (id : Nat)
    (h : cats.contains id = true) :
    List.lookup id
      (heap.map fun p =>
        if cats.contains p.1 then (p.1, applyRule rules p.2) else p)
      = (List.lookup id heap).map (applyRule rules) := by
  induction heap with
  | nil => simp
  | cons p heap ih =>
    obtain ⟨k, v⟩ := p
    rw [List.map_cons]
    dsimp only
    by_cases hc : cats.contains k = true
    · rw [if_pos hc]
      by_cases hk : id = k
      · subst hk
        rw [lookup_cons_self, lookup_cons_self]
        rfl
      · rw [lookup_cons_ne _ _ _ _ hk, lookup_cons_ne _ _ _ _ hk, ih]
    · rw [if_neg hc]
      by_cases hk : id = k
      · subst hk
        exact absurd h hc
      · rw [lookup_cons_ne _ _ _ _ hk, lookup_cons_ne _ _ _ _ hk, ih]

/-- Looking an identity up in the heap after `setLogRule`'s bulk apply,
when the identity is not tracked, finds the entry unchanged. -/
theorem lookup_map_rules_untracked (cats : List Nat)
    (rules : List (String × LogLevel)) (heap : List (Nat × LogCategory))
    (id : Nat) (h : cats.contains id = false) :
    List.lookup id
      (heap.map fun p =>
        if cats.contains p.1 then (p.1, applyRule rules p.2) else p)
      = List.lookup id heap := by
  induction heap with
  | nil => simp
  | cons p heap ih =>
    obtain ⟨k, v⟩ := p
    rw [List.map_cons]
    dsimp only
    by_cases hc : cats.contains k = true
    · rw [if_pos hc]
      by_cases hk : id = k
      · subst hk
        rw [h] at hc
        exact absurd hc Bool.false_ne_true
      · rw [lookup_cons_ne _ _ _ _ hk, lookup_cons_ne _ _ _ _ hk, ih]
    · rw [if_neg hc]
      by_cases hk : id = k
      · subst hk
        rw [lookup_cons_self, lookup_cons_self]
      · rw [lookup_cons_ne _ _ _ _ hk, lookup_cons_ne _ _ _ _ hk, ih]

/-- Erasing an identity from the tracked set makes `contains` false. -/
theorem contains_filter_ne (l : List Nat) (id : Nat) :
    (l.filter fun x => x ≠ id).contains id = false := by
  induction l with
  | nil => rfl
  | cons a l ih =>
    by_cases ha : a = id
    · simp [List.filter_cons, ha, ih]
    · simp [List.filter_cons, ha, ih]
      omega

/-- No category mutation ever changes the remembered default. -/
theorem runOps_defaultLevel (ops : List CatOp) (c : LogCategory) :
    (runOps c ops).defaultLevel = c.defaultLevel := by
  induction ops generalizing c with
  | nil => rfl
  | cons op ops ih =>
    rw [runOps, List.foldl_cons]
    show (runOps _ ops).defaultLevel = _
    rw [ih]
    cases op with
    | setInt l =>
      unfold setLogLevelInt
      dsimp only
      by_cases h : validateLogLevel l = true
      · rw [if_pos h]
        rfl
      · rw [if_neg h]
    | setLevel l => rfl
    | applyRules rules => exact applyRule_defaultLevel rules c
    | reset => rfl

/-- C1: for every category state and every level, `checkLogLevel`
returns true iff the level is not `NoLog` and its rank is at most the
rank of the category's current threshold; in particular a check at
`NoLog` is never enabled. -/
theorem C1_checkLogLevel_enabled_iff (c : LogCategory) (l : LogLevel) :
    (checkLogLevel c l = true ↔ l ≠ LogLevel.NoLog ∧ l.toInt ≤ c.level.toInt)
    ∧ checkLogLevel c LogLevel.NoLog = false := by
  constructor
  · rw [checkLogLevel]
    simp
  · rw [checkLogLevel]
    simp

/-- C2: after `setLogRule`, every tracked category matched by no rule
of the newly parsed rule set has its threshold equal to its recorded
default (in particular for an empty or entirely unparsable rule string,
whose parse is empty, every tracked category ends at its default). -/
theorem C2_setLogRule_unmatched_default (w : LogWorld) (s : String)
    (id : Nat) (c : LogCategory)
    (htr : w.categories.contains id = true)
    (hc : List.lookup id (setLogRule w s).heap = some c)
    (hnm : ∀ r ∈ parseRules s, ¬(r.1 = "*" ∨ r.1 = c.name)) :
    c.level = c.defaultLevel := by
  rw [setLogRule] at hc
  dsimp only at hc
  rw [lookup_map_rules w.categories (parseRules s) w.heap id htr] at hc
  rw [Option.map_eq_some'] at hc
  obtain ⟨c0, hc0, hap⟩ := hc
  subst hap
  rw [applyRule_name] at hnm
  rw [applyRule_level, applyRule_defaultLevel]
  have hfil : (parseRules s).filter
      (fun r => decide (r.1 = "*" ∨ r.1 = c0.name)) = [] := by
    rw [List.filter_eq_nil_iff]
    intro r hr
    simpa using hnm r hr
  rw [hfil]
  rfl

/-- Witness for C2 at a concrete registry and rule string. -/
theorem C2_setLogRule_unmatched_default_witness :
    (⟨"foo", .Info, .Info⟩ : LogCategory).level
      = (⟨"foo", .Info, .Info⟩ : LogCategory).defaultLevel :=
  C2_setLogRule_unmatched_default
    ⟨[(0, ⟨"foo", .Info, .Info⟩)], [0], []⟩ "bar=2" 0
    ⟨"foo", .Info, .Info⟩ (by decide) (by decide) (by decide)

/-- C3: rule application iterates the rule list in order, overwriting
the threshold at every rule matching by wildcard or exact name, so the
last matching rule wins; concretely, with rules `"*=2,foo=4"` applied
to tracked categories `foo` and `bar`, `foo` ends at rank 4 and `bar`
at rank 2. -/
theorem C3_applyRule_last_match_wins :
    (∀ (rules : List (String × LogLevel)) (c : LogCategory),
      (applyRule rules c).level
        = ((((rules.filter fun r => decide (r.1 = "*" ∨ r.1 = c.name)).getLast?).map
              Prod.snd).getD c.defaultLevel))
    ∧ ((List.lookup 0
          (setLogRule
            ⟨[(0, ⟨"foo", .Info, .Info⟩), (1, ⟨"bar", .Info, .Info⟩)],
             [0, 1], []⟩ "*=2,foo=4").heap).map
          (fun c => c.level.toInt) = some 4
        ∧ (List.lookup 1
            (setLogRule
              ⟨[(0, ⟨"foo", .Info, .Info⟩), (1, ⟨"bar", .Info, .Info⟩)],
               [0, 1], []⟩ "*=2,foo=4").heap).map
            (fun c => c.level.toInt) = some 2) :=
  ⟨applyRule_level, by decide, by decide⟩

/-- C4: registering an already-tracked category is a no-op, and a
category constructed (hence registered) while a rule set is active
immediately carries the rule-derived threshold obtained by applying the
current rules to its construction state. -/
theorem C4_register_applies_current_rules (w : LogWorld) (id : Nat)
    (name : String) (level : LogLevel) :
    (w.categories.contains id = true → registerCategory w id = w)
    ∧ (w.categories.contains id = false →
        List.lookup id (constructCategory w id name level).heap
          = some (applyRule w.rules ⟨name, level, level⟩)) := by
  constructor
  · intro h
    rw [registerCategory, if_pos h]
  · intro h
    rw [constructCategory, registerCategory]
    dsimp only
    rw [if_neg (by rw [h]; exact Bool.false_ne_true)]
    dsimp only
    rw [updateHeap, List.map_cons]
    dsimp only
    rw [if_pos rfl, lookup_cons_self]

/-- Witness for C4 at a concrete registry with an active wildcard rule. -/
theorem C4_register_applies_current_rules_witness :
    List.lookup 0
      (constructCategory ⟨[], [], [("*", .Warn)]⟩ 0 "foo" .Debug).heap
      = some (applyRule [("*", .Warn)] ⟨"foo", .Debug, .Debug⟩) :=
  (C4_register_applies_current_rules ⟨[], [], [("*", .Warn)]⟩ 0 "foo" .Debug).2
    (by decide)

/-- C5: a gating check at Fatal level never returns false — it either
returns true or aborts — and at every non-Fatal level `fatalWrapper`
returns exactly the ordinary threshold check without aborting. -/
theorem C5_fatalWrapper_never_silent (c : LogCategory) (level : LogLevel) :
    fatalWrapper c LogLevel.Fatal ≠ FatalResult.ret false
    ∧ (fatalWrapper c LogLevel.Fatal = FatalResult.ret true
        ∨ fatalWrapper c LogLevel.Fatal = FatalResult.abort)
    ∧ (level ≠ LogLevel.Fatal →
        fatalWrapper c level = FatalResult.ret (checkLogLevel c level)) := by
  refine ⟨?_, ?_, ?_⟩
  · rw [fatalWrapper]
    cases h : checkLogLevel c LogLevel.Fatal <;> simp [h]
  · rw [fatalWrapper]
    cases h : checkLogLevel c LogLevel.Fatal <;> simp [h]
  · intro hne
    rw [fatalWrapper]
    simp [hne]

/-- Witness for C5 at a concrete category and non-Fatal level. -/
theorem C5_fatalWrapper_never_silent_witness :
    fatalWrapper ⟨"x", .Info, .Info⟩ .Error
      = .ret (checkLogLevel ⟨"x", .Info, .Info⟩ .Error) :=
  (C5_fatalWrapper_never_silent ⟨"x", .Info, .Info⟩ .Error).2.2 (by decide)

/-- C6, counterexample: the token `"foo=2x"` has a value part that is
not an integer, yet it is kept (as level 2) rather than dropped,
because `std::stoi` parses the leading digits and ignores the rest. -/
theorem C6_counterexample :
    (parseRules "foo=2x").map (fun r => (r.1, r.2.toInt)) = [("foo", 2)]
    ∧ isIntegerString "2x" = false := by
  constructor
  · decide
  · decide

/-- C6 as amended: `parseRules` keeps exactly the tokens that split on
"=" into two parts and whose value part yields, under `std::stoi`
semantics (leading whitespace and sign allowed, trailing junk
ignored), an integer in the valid level range; all other tokens are
silently dropped and the kept ones appear in order. -/
theorem C6_parseRules_kept_tokens (s : String) :
    parseRules s = (stringutils.split s ',').filterMap parseRuleToken :=
  parseRules_eq_filterMap s

/-- C7: level validation accepts exactly the integers in
`[0, LastLogLevel]`; `NoLog` lies outside this range; no parsed rule
ever carries `NoLog`; and applying a parsed rule set can leave a
category at `NoLog` only if that is already its construction-time
default. -/
theorem C7_validate_range_NoLog_unreachable :
    (∀ l : Int, validateLogLevel l = true
        ↔ 0 ≤ l ∧ l ≤ LogLevel.LastLogLevel.toInt)
    ∧ validateLogLevel LogLevel.NoLog.toInt = false
    ∧ (∀ (s : String) (r : String × LogLevel),
        r ∈ parseRules s → r.2 ≠ LogLevel.NoLog)
    ∧ (∀ (s : String) (c : LogCategory),
        (applyRule (parseRules s) c).level = LogLevel.NoLog →
          c.defaultLevel = LogLevel.NoLog) := by
  refine ⟨?_, by decide, parseRules_ne_NoLog, ?_⟩
  · intro l
    rw [validateLogLevel]
    simp
  · intro s c h
    rw [applyRule_level] at h
    cases hg : ((parseRules s).filter
        (fun r => decide (r.1 = "*" ∨ r.1 = c.name))).getLast? with
    | none => rw [hg] at h; exact h
    | some r =>
      rw [hg] at h
      have hr : r ∈ (parseRules s).filter
          (fun x => decide (x.1 = "*" ∨ x.1 = c.name)) := by
        obtain ⟨hne, heq⟩ := List.mem_getLast?_eq_getLast hg
        rw [heq]
        exact List.getLast_mem hne
      have hr2 : r ∈ parseRules s := (List.mem_filter.mp hr).1
      exact absurd h (parseRules_ne_NoLog s r hr2)

/-- Witness for C7: the rule parsed from `"*=2"` does not carry
`NoLog`. -/
theorem C7_validate_range_NoLog_unreachable_witness :
    (("*", LogLevel.Warn) : String × LogLevel).2 ≠ LogLevel.NoLog :=
  C7_validate_range_NoLog_unreachable.2.2.1 "*=2" ("*", LogLevel.Warn)
    (by decide)

/-- C8: the remembered default never changes after construction, and a
single `resetLogLevel` after any sequence of set-threshold calls and
rule applications restores the current threshold to exactly the
construction-time default. -/
theorem C8_reset_restores_default (c : LogCategory) (ops : List CatOp) :
    (runOps c ops).defaultLevel = c.defaultLevel
    ∧ (resetLogLevel (runOps c ops)).level = c.defaultLevel := by
  refine ⟨runOps_defaultLevel ops c, ?_⟩
  rw [resetLogLevel]
  exact runOps_defaultLevel ops c

/-- C9: after unregistering, the identity is no longer tracked; a
subsequent `setLogRule` leaves that category object untouched and does
not re-add it to the tracked set; and unregistering an untracked
identity is a no-op. -/
theorem C9_unregister_then_setRules (w : LogWorld) (id : Nat) (s : String) :
    (unregisterCategory w id).categories.contains id = false
    ∧ List.lookup id (setLogRule (unregisterCategory w id) s).heap
        = List.lookup id w.heap
    ∧ (setLogRule (unregisterCategory w id) s).categories.contains id = false
    ∧ (w.categories.contains id = false → unregisterCategory w id = w) := by
  have hun : (unregisterCategory w id).categories.contains id = false :=
    contains_filter_ne w.categories id
  refine ⟨hun, ?_, ?_, ?_⟩
  · rw [setLogRule]
    dsimp only
    exact lookup_map_rules_untracked _ _ _ _ hun
  · rw [setLogRule]
    dsimp only
    exact hun
  · intro h
    have hmem : ∀ a ∈ w.categories, a ≠ id := by
      intro a ha hEq
      subst hEq
      rw [List.contains_eq_any_beq] at h
      have : w.categories.any (fun x => a == x) = true := by
        rw [List.any_eq_true]
        exact ⟨a, ha, by simp⟩
      rw [this] at h
      exact Bool.noConfusion h
    rw [unregisterCategory]
    have : w.categories.filter (fun x => decide (x ≠ id)) = w.categories := by
      rw [List.filter_eq_self]
      intro a ha
      simpa using hmem a ha
    rw [this]

/-- Witness for C9: unregistering an identity that was never tracked
leaves the registry unchanged. -/
theorem C9_unregister_then_setRules_witness :
    unregisterCategory ⟨[], [3], []⟩ 5 = ⟨[], [3], []⟩ :=
  (C9_unregister_then_setRules ⟨[], [3], []⟩ 5 "x").2.2.2 (by decide)

/-- C10: the forced-fatal query aborts whenever the level is Fatal and
returns false for every other level, consulting no category state. -/
theorem C10_fatalWrapper2_forced (level : LogLevel) :
    fatalWrapper2 LogLevel.Fatal = FatalResult.abort
    ∧ (level ≠ LogLevel.Fatal → fatalWrapper2 level = FatalResult.ret false) := by
  constructor
  · rfl
  · intro h
    rw [fatalWrapper2, if_neg h]

/-- Witness for C10 at a concrete non-Fatal level. -/
theorem C10_fatalWrapper2_forced_witness :
    fatalWrapper2 LogLevel.Error = FatalResult.ret false :=
  (C10_fatalWrapper2_forced LogLevel.Error).2 (by decide)

end fcitx
